import Mathlib

/-!
Verification of the hedgeiq-backend flow-based GEX core.

Shallow embedding of:
- `src/deribit_websocket.py` (`DealerInventory.update_from_trade`, trade → delta mapping)
- `src/redis_state.py` (`RedisStateManager.update_dealer_position`, `store_gex_result`)
- `src/stream_processor.py` (`process_trade`, `should_recalculate`, `recalculate_gex`,
  `run_forever`, `stop`)
- `src/flow_based_gex.py` (`FlowBasedGEXCalculator.black_scholes_gamma`, `calculate_gex`,
  `_find_flip_level`)

Modelling conventions: Python floats are idealised as `ℚ` where only field arithmetic
and comparisons occur, and as `ℝ` where the Black-Scholes kernel (log/exp/sqrt) is
involved.  Clock instants (`datetime.now()` / `pd.Timestamp.now()`) are passed as
explicit numeric arguments (seconds).  Strikes are kept as `ℚ` (venue strikes are
integral, so `int(row['strike'])` is the identity on the inputs of interest).
-/

/-! ## Dealer inventory: trade → delta (deribit_websocket.py / stream_processor.py) -/

/-- Trade direction → signed inventory delta, as written identically in
`DealerInventory.update_from_trade` and `HedgeIQStreamProcessor.process_trade`:
`if direction == "buy": delta = -amount else: delta = amount`. -/
def trade_delta (direction : String) (amount : ℚ) : ℚ :=
  if direction = "buy" then -amount else amount

/-- The `DealerInventory.positions` defaultdict: total map with default 0.0
(`defaultdict(lambda: {"call": 0.0, "put": 0.0})`). -/
def DealerPositions : Type := ℚ → String → ℚ

/-- `DealerInventory.update_from_trade`: `self.positions[strike][option_type] += delta`
with `delta` from the taker side; returns (new positions, delta). -/
def update_from_trade (pos : DealerPositions) (strike : ℚ) (optionType : String)
    (amount : ℚ) (takerSide : String) : DealerPositions × ℚ :=
  (fun k t =>
    if k = strike ∧ t = optionType then pos k t + trade_delta takerSide amount
    else pos k t,
   trade_delta takerSide amount)

/-- The Redis hash `dealer_inventory`: association list from field
`(strike, option_type)` to a stored float.  Most-recent binding first (HSET
overwrites the field). -/
def RedisHash : Type := List ((ℚ × String) × ℚ)

/-- `HGET dealer_inventory "{strike}:{type}"` — `None` when the field is absent. -/
def hgetPos (h : RedisHash) (strike : ℚ) (optionType : String) : Option ℚ :=
  (h.find? (fun e => decide (e.1 = (strike, optionType)))).map (·.2)

/-- `HSET dealer_inventory "{strike}:{type}" v` — field update on the hash. -/
def hsetPos (h : RedisHash) (strike : ℚ) (optionType : String) (v : ℚ) : RedisHash :=
  ((strike, optionType), v) :: h.filter (fun e => decide (¬ e.1 = (strike, optionType)))

/-- Stored position read with the code's default:
`current_val = float(current) if current else 0.0`. -/
def hgetPosD (h : RedisHash) (strike : ℚ) (optionType : String) : ℚ :=
  (hgetPos h strike optionType).getD 0

/-- `RedisStateManager.update_dealer_position`: read-modify-write
`new = current_or_zero + delta`; returns (new hash, new value). -/
def update_dealer_position (h : RedisHash) (strike : ℚ) (optionType : String)
    (delta : ℚ) : RedisHash × ℚ :=
  (hsetPos h strike optionType (hgetPosD h strike optionType + delta),
   hgetPosD h strike optionType + delta)

/-- `HedgeIQStreamProcessor.process_trade`, inventory-update step: a parsed trade
(strike, type, amount, direction) is always applied — the direction string is not
validated, only compared against `"buy"`. -/
def process_trade_step (h : RedisHash) (strike : ℚ) (optionType : String)
    (amount : ℚ) (direction : String) : RedisHash × ℚ :=
  update_dealer_position h strike optionType (trade_delta direction amount)

/-! ## Recalculation scheduler (stream_processor.py) -/

/-- `self.calc_every_n_trades = 10`. -/
def calc_every_n_trades : ℕ := 10

/-- `self.calc_interval_seconds = 5`. -/
def calc_interval_seconds : ℤ := 5

/-- Python's `timedelta.seconds` attribute on a whole-second delta `d`: the
normalised seconds-of-day component, `d mod 86400` (floor convention), NOT the
total elapsed seconds. -/
def timedelta_seconds (d : ℤ) : ℤ := d % 86400

/-- Scheduler counters: `self.last_calc_time` (None until the first run) and
`self.trades_since_last_calc`. -/
structure SchedulerState where
  lastCalcTime : Option ℤ
  tradesSinceLastCalc : ℕ
deriving DecidableEq, Repr

/-- `HedgeIQStreamProcessor.should_recalculate`, with `now` the current clock in
whole seconds: `True` if never calculated, else if enough trades, else if
`(datetime.now() - self.last_calc_time).seconds >= self.calc_interval_seconds`. -/
def should_recalculate (st : SchedulerState) (now : ℤ) : Bool :=
  match st.lastCalcTime with
  | none => true
  | some t =>
    if st.tradesSinceLastCalc ≥ calc_every_n_trades then true
    else if timedelta_seconds (now - t) ≥ calc_interval_seconds then true
    else false

/-- Counter effect of `HedgeIQStreamProcessor.recalculate_gex`: early-returns
(leaving both counters untouched) when the options cache is missing/empty or the
inventory is empty; otherwise performs the calculation (modelled separately by
`calculate_gex`), stores it, and resets `last_calc_time := now`,
`trades_since_last_calc := 0`. -/
def recalculate_gex_counters (st : SchedulerState) (optionsEmpty : Bool)
    (inventoryEmpty : Bool) (now : ℤ) : SchedulerState :=
  if optionsEmpty then st
  else if inventoryEmpty then st
  else { lastCalcTime := some now, tradesSinceLastCalc := 0 }

/-! ## GEX result store (redis_state.py) -/

/-- The fields of the stored GEX dict relevant to the `gex:flip` mirror. -/
structure GexBlob where
  netGex : ℚ
  flipLevel : Option ℚ
  btcPrice : ℚ
deriving DecidableEq, Repr

/-- The Redis keys written by `store_gex_result`: `gex:current` (JSON blob),
`gex:flip` (stringified float, modelled numerically — `str`/`float` round-trip),
`gex:last_updated`. -/
structure GexStore where
  current : Option GexBlob
  flip : Option ℚ
  lastUpdated : Option ℤ
deriving DecidableEq, Repr

/-- Python truthiness of `gex_result.get("flip_level")`: `None` and `0.0` are
falsy. -/
def truthy_flip : Option ℚ → Bool
  | none => false
  | some x => decide (x ≠ 0)

/-- `RedisStateManager.store_gex_result`: always rewrites `gex:current` and
`gex:last_updated`; writes `gex:flip` only under
`if gex_result.get("flip_level"):`. -/
def store_gex_result (st : GexStore) (blob : GexBlob) (now : ℤ) : GexStore :=
  { current := some blob,
    lastUpdated := some now,
    flip := if truthy_flip blob.flipLevel then blob.flipLevel else st.flip }

/-! ## Reconnect loop (stream_processor.py `run_forever` / `run` / `stop`) -/

/-- Phase of `run()` in which an exception can originate; `run()` re-raises every
exception (both the `ConnectionClosed` and generic handlers end in `raise`). -/
inductive RunPhase
  | connectPhase
  | authPhase
  | subscribePhase
  | listenPhase
deriving DecidableEq, Repr

/-- How one `await self.run()` inside `run_forever`'s `while True` ends. -/
inductive RunOutcome
  | normalReturn
  | raised (phase : RunPhase)
  | keyboardInterrupt
deriving DecidableEq, Repr

/-- What `run_forever` does next after one `run()` completes. -/
inductive LoopAction
  | exitLoop
  | sleepThenRetry (seconds : ℕ)
  | retryNow
deriving DecidableEq, Repr

/-- The body of `run_forever`'s `while True`: `except KeyboardInterrupt: break`;
`except Exception: ... await asyncio.sleep(5)` then loop; a normal return falls
through to the next iteration with no sleep and no break. -/
def run_forever_step : RunOutcome → LoopAction
  | RunOutcome.keyboardInterrupt => LoopAction.exitLoop
  | RunOutcome.raised _ => LoopAction.sleepThenRetry 5
  | RunOutcome.normalReturn => LoopAction.retryNow

/-- Index of the iteration at which `run_forever` leaves its loop, given the
sequence of `run()` outcomes; `none` if the trace is exhausted without exiting. -/
def run_forever_exit_index : List RunOutcome → Option ℕ
  | [] => none
  | o :: rest =>
    if run_forever_step o = LoopAction.exitLoop then some 0
    else (run_forever_exit_index rest).map (· + 1)

/-- The processor's `self.running` flag. -/
structure ProcState where
  running : Bool
deriving DecidableEq, Repr

/-- `HedgeIQStreamProcessor.stop`: `self.running = False`. -/
def stop (s : ProcState) : ProcState := { s with running := false }

/-- Guard of `run()`'s `while self.running:` message loop. -/
def run_loop_iterates (s : ProcState) : Bool := s.running

/-! ## Gamma exposure engine (flow_based_gex.py) -/

/-- One row of the `options_data` DataFrame: columns `strike`, `option_type`,
`expiration` (absolute instant, in seconds), `mark_iv`. -/
structure Instr where
  strike : ℚ
  optionType : String
  expiration : ℚ
  markIv : ℚ
deriving DecidableEq, Repr

/-- The `dealer_inventory` argument: `{strike: {"call": pos, "put": pos}}`. -/
def Inventory : Type := List (ℚ × List (String × ℚ))

/-- The lookup `dealer_inventory[strike].get(option_type, 0)` guarded by
`if strike in dealer_inventory`, defaulting to 0 at both levels. -/
def lookupPosition (inv : Inventory) (strike : ℚ) (optionType : String) : ℚ :=
  match inv.find? (fun e => decide (e.1 = strike)) with
  | none => 0
  | some e =>
    match e.2.find? (fun p => decide (p.1 = optionType)) with
    | none => 0
    | some p => p.2

/-- `dte_seconds`: `(expiration - pd.Timestamp.now()).dt.total_seconds()`. -/
def dteSeconds (o : Instr) (now : ℚ) : ℚ := o.expiration - now

/-- `dte_days = dte_seconds / 86400`. -/
def dteDays (o : Instr) (now : ℚ) : ℚ := dteSeconds o now / 86400

/-- The expiry filter `options_filtered[options_filtered['dte_days'] > 0.083]`. -/
def optionsFiltered (options : List Instr) (now : ℚ) : List Instr :=
  options.filter (fun o => decide (dteDays o now > 0.083))

/-- `options_filtered.sort_values('dte_days')`. -/
def sortByDte (l : List Instr) (now : ℚ) : List Instr :=
  l.mergeSort (fun a b => decide (dteDays a now ≤ dteDays b now))

/-- The `groupby(['strike', 'option_type'])` key of an instrument. -/
def instrKey (o : Instr) : ℚ × String := (o.strike, o.optionType)

/-- The effect of `.groupby(['strike', 'option_type']).first()` on an
already-sorted frame: keep the first row of each key, drop later ones. -/
def keepFirstByKey : List (ℚ × String) → List Instr → List Instr
  | _, [] => []
  | seen, x :: xs =>
    if instrKey x ∈ seen then keepFirstByKey seen xs
    else x :: keepFirstByKey (instrKey x :: seen) xs

/-- Lines 128-130 of flow_based_gex.py: sort by DTE, then keep only the nearest
expiry per (strike, option_type).  (pandas `groupby(...).first().reset_index()`
additionally re-orders the kept rows by key; that only permutes `gex_data`, and
every later stage — per-strike aggregation, net sum, flip scan over the
strike-sorted frame — is insensitive to that permutation in the real-number
idealisation, so the embedding keeps the DTE order.) -/
def selectNearest (options : List Instr) (now : ℚ) : List Instr :=
  keepFirstByKey [] (sortByDte (optionsFiltered options now) now)

/-- The standard normal density `scipy.stats.norm.pdf`. -/
noncomputable def normPdf (x : ℝ) : ℝ :=
  Real.exp (-(x ^ 2) / 2) / Real.sqrt (2 * Real.pi)

/-- `FlowBasedGEXCalculator.black_scholes_gamma`: guard `T <= 0 or sigma <= 0`,
else `d1 = (log(S/K) + (r + 0.5*sigma**2)*T) / (sigma*sqrt(T))` and
`gamma = norm.pdf(d1) / (S*sigma*sqrt(T))`. -/
noncomputable def black_scholes_gamma (S K T r sigma : ℝ) : ℝ :=
  if T ≤ 0 ∨ sigma ≤ 0 then 0
  else
    normPdf ((Real.log (S / K) + (r + 0.5 * sigma ^ 2) * T) / (sigma * Real.sqrt T)) /
      (S * sigma * Real.sqrt T)

/-- IV normalisation: `if sigma > 5: sigma = sigma / 100.0`. -/
def sigmaOf (o : Instr) : ℚ := if o.markIv > 5 then o.markIv / 100 else o.markIv

/-- Time weight `1.0 / np.sqrt(days_to_expiry)` when `days_to_expiry > 0`,
else `1.0`. -/
noncomputable def timeWeightOf (o : Instr) (now : ℚ) : ℝ :=
  if dteDays o now > 0 then 1 / Real.sqrt (dteDays o now : ℝ) else 1

/-- `gex = gamma * dealer_position * (btc_price ** 2) * 0.01` for one row, with
`T = dte_days / 365.25` and risk-free rate 0. -/
noncomputable def gexRawOf (inv : Inventory) (price : ℚ) (now : ℚ) (o : Instr) : ℝ :=
  black_scholes_gamma (price : ℝ) (o.strike : ℝ) ((dteDays o now / 365.25 : ℚ) : ℝ) 0
      ((sigmaOf o : ℚ) : ℝ) *
    (lookupPosition inv o.strike o.optionType : ℝ) * (price : ℝ) ^ 2 * 0.01

/-- One element of `gex_data`. -/
structure GexDataRow where
  strike : ℚ
  optionType : String
  dealerPosition : ℚ
  gamma : ℝ
  gexRaw : ℝ
  gexWeighted : ℝ
  timeWeight : ℝ
  daysToExpiry : ℚ
  markIv : ℚ

/-- The loop body of `calculate_gex`: skip when `abs(dealer_position) < 0.001`
or normalised `sigma <= 0`; otherwise append the per-instrument data point. -/
noncomputable def gexRowOf (inv : Inventory) (price : ℚ) (now : ℚ) (o : Instr) :
    Option GexDataRow :=
  if |lookupPosition inv o.strike o.optionType| < 0.001 then none
  else if sigmaOf o ≤ 0 then none
  else
    some
      { strike := o.strike
        optionType := o.optionType
        dealerPosition := lookupPosition inv o.strike o.optionType
        gamma := black_scholes_gamma (price : ℝ) (o.strike : ℝ)
          ((dteDays o now / 365.25 : ℚ) : ℝ) 0 ((sigmaOf o : ℚ) : ℝ)
        gexRaw := gexRawOf inv price now o
        gexWeighted := gexRawOf inv price now o * timeWeightOf o now
        timeWeight := timeWeightOf o now
        daysToExpiry := dteDays o now
        markIv := o.markIv }

/-- `gex_data`: the data points produced by iterating the selected rows. -/
noncomputable def gexData (inv : Inventory) (options : List Instr) (price : ℚ)
    (now : ℚ) : List GexDataRow :=
  (selectNearest options now).filterMap (gexRowOf inv price now)

/-- One row of the aggregated `gex_by_strike` frame (column `gex_weighted` is
renamed to `gex`). -/
structure StrikeRow where
  strike : ℚ
  gex : ℝ
  gexRaw : ℝ
  dealerPosition : ℚ

/-- The distinct strikes of `gex_data`, ascending — the group keys of
`gex_df.groupby('strike')` combined with `sort_values('strike')`. -/
def strikesOf (rows : List GexDataRow) : List ℚ :=
  ((rows.map (·.strike)).dedup).mergeSort (fun a b => decide (a ≤ b))

/-- `gex_df.groupby('strike').agg(sum)` over `gex_weighted`, `gex_raw`,
`dealer_position`, sorted by strike. -/
noncomputable def aggregateByStrike (rows : List GexDataRow) : List StrikeRow :=
  (strikesOf rows).map (fun s =>
    { strike := s
      gex := ((rows.filter (fun r => decide (r.strike = s))).map (·.gexWeighted)).sum
      gexRaw := ((rows.filter (fun r => decide (r.strike = s))).map (·.gexRaw)).sum
      dealerPosition :=
        ((rows.filter (fun r => decide (r.strike = s))).map (·.dealerPosition)).sum })

/-- First-maximum scan matching `DataFrame.idxmax` (the first row attaining the
maximum wins: later rows replace only on a strictly greater value). -/
noncomputable def pickMaxGex (best : StrikeRow) : List StrikeRow → StrikeRow
  | [] => best
  | r :: rest => pickMaxGex (if r.gex > best.gex then r else best) rest

/-- First-minimum scan matching `DataFrame.idxmin`. -/
noncomputable def pickMinGex (best : StrikeRow) : List StrikeRow → StrikeRow
  | [] => best
  | r :: rest => pickMinGex (if r.gex < best.gex then r else best) rest

/-- `max_support`: the row of maximum `gex` if any aggregate is positive, else
the `(0, 0)` sentinel. -/
noncomputable def maxSupportOf (rows : List StrikeRow) : ℚ × ℝ :=
  if rows.any (fun r => decide (r.gex > 0)) then
    match rows with
    | [] => (0, 0)
    | r :: rest => ((pickMaxGex r rest).strike, (pickMaxGex r rest).gex)
  else (0, 0)

/-- `max_resistance`: the row of minimum `gex` if any aggregate is negative,
else the `(0, 0)` sentinel. -/
noncomputable def maxResistanceOf (rows : List StrikeRow) : ℚ × ℝ :=
  if rows.any (fun r => decide (r.gex < 0)) then
    match rows with
    | [] => (0, 0)
    | r :: rest => ((pickMinGex r rest).strike, (pickMinGex r rest).gex)
  else (0, 0)

/-- The scan of `_find_flip_level` over adjacent pairs of the sorted relevant
rows: at the first sign flip, interpolate; otherwise advance. -/
noncomputable def scanFlip : List StrikeRow → Option ℝ
  | a :: b :: rest =>
    if a.gex > 0 ∧ b.gex < 0 then
      some ((a.strike : ℝ) + a.gex / (a.gex - b.gex) * ((b.strike : ℝ) - (a.strike : ℝ)))
    else if a.gex < 0 ∧ b.gex > 0 then
      some ((a.strike : ℝ) + -a.gex / (b.gex - a.gex) * ((b.strike : ℝ) - (a.strike : ℝ)))
    else scanFlip (b :: rest)
  | _ => none

/-- The ±15% spot window of `_find_flip_level`, sorted ascending by strike. -/
noncomputable def relevantRows (rows : List StrikeRow) (price : ℚ) : List StrikeRow :=
  (rows.filter (fun r => decide (r.strike ≥ price * 0.85 ∧ r.strike ≤ price * 1.15))).mergeSort
    (fun a b => decide (a.strike ≤ b.strike))

/-- `FlowBasedGEXCalculator._find_flip_level`. -/
noncomputable def find_flip_level (rows : List StrikeRow) (price : ℚ) : Option ℝ :=
  if (relevantRows rows price).length < 2 then none
  else scanFlip (relevantRows rows price)

/-- `GEXResult`; the timestamp is the clock instant stamped at return
(`datetime.now()`, i.e. the same `now` the engine was entered with). -/
structure GEXResult where
  gexByStrike : List StrikeRow
  netGex : ℝ
  flipLevel : Option ℝ
  maxSupport : ℚ × ℝ
  maxResistance : ℚ × ℝ
  btcPrice : ℚ
  timestamp : ℚ

/-- The empty/zero sentinel result returned when no options survive filtering or
no data points are produced. -/
def emptyResult (price : ℚ) (now : ℚ) : GEXResult :=
  { gexByStrike := []
    netGex := 0
    flipLevel := none
    maxSupport := (0, 0)
    maxResistance := (0, 0)
    btcPrice := price
    timestamp := now }

/-- `FlowBasedGEXCalculator.calculate_gex` with the clock (`pd.Timestamp.now()` /
`datetime.now()`) as the explicit argument `now`. -/
noncomputable def calculate_gex (inv : Inventory) (options : List Instr) (price : ℚ)
    (now : ℚ) : GEXResult :=
  if (optionsFiltered options now).isEmpty then emptyResult price now
  else if (gexData inv options price now).isEmpty then emptyResult price now
  else
    { gexByStrike := aggregateByStrike (gexData inv options price now)
      netGex := ((aggregateByStrike (gexData inv options price now)).map (·.gex)).sum
      flipLevel := find_flip_level (aggregateByStrike (gexData inv options price now)) price
      maxSupport := maxSupportOf (aggregateByStrike (gexData inv options price now))
      maxResistance := maxResistanceOf (aggregateByStrike (gexData inv options price now))
      btcPrice := price
      timestamp := now }

/-! ## Supporting lemmas -/

/-- Reading back the field just written by HSET. -/
theorem hgetPosD_hsetPos (h : RedisHash) (strike : ℚ) (optionType : String) (v : ℚ) :
    hgetPosD (hsetPos h strike optionType v) strike optionType = v := by
  simp [hgetPosD, hgetPos, hsetPos, List.find?]

/-- The "buy" branch of the trade → delta mapping. -/
theorem trade_delta_buy (a : ℚ) : trade_delta "buy" a = -a := by
  simp [trade_delta]

/-- The fall-through branch of the trade → delta mapping. -/
theorem trade_delta_of_ne (dir : String) (a : ℚ) (h : dir ≠ "buy") :
    trade_delta dir a = a := by
  simp [trade_delta, h]

/-! ## Claim theorems -/

/-- C1: every trade applied to the dealer inventory at key (strike, option type)
with amount `a` moves the stored position by exactly `-a` when the taker side is
"buy" and `+a` when it is "sell"; the new stored value is the previous value (or
zero if absent) plus that delta — in both the Redis-backed store
(`update_dealer_position`) and the in-process `DealerInventory`
(`update_from_trade`). -/
theorem c1_inventory_delta (h : RedisHash) (pos : DealerPositions) (strike : ℚ)
    (optionType : String) (a : ℚ) :
    hgetPosD (update_dealer_position h strike optionType (trade_delta "buy" a)).1
        strike optionType = hgetPosD h strike optionType - a ∧
    hgetPosD (update_dealer_position h strike optionType (trade_delta "sell" a)).1
        strike optionType = hgetPosD h strike optionType + a ∧
    (update_from_trade pos strike optionType a "buy").1 strike optionType =
        pos strike optionType - a ∧
    (update_from_trade pos strike optionType a "sell").1 strike optionType =
        pos strike optionType + a := by
  refine ⟨?_, ?_, ?_, ?_⟩
  · rw [update_dealer_position, hgetPosD_hsetPos, trade_delta_buy, sub_eq_add_neg]
  · rw [update_dealer_position, hgetPosD_hsetPos,
      trade_delta_of_ne "sell" a (by decide)]
  · show (if strike = strike ∧ optionType = optionType then _ else _) = _
    rw [if_pos ⟨rfl, rfl⟩, trade_delta_buy, sub_eq_add_neg]
  · show (if strike = strike ∧ optionType = optionType then _ else _) = _
    rw [if_pos ⟨rfl, rfl⟩, trade_delta_of_ne "sell" a (by decide)]

/-- C10: only the exact taker-side string "buy" produces a negative delta; every
other direction value — the empty string (the default used for a missing field)
included — is treated as a sell, and the trade is still applied, adding
`+amount` to the dealer position rather than being dropped. -/
theorem c10_unrecognized_side_is_sell :
    (∀ a : ℚ, trade_delta "buy" a = -a) ∧
    (∀ (dir : String) (a : ℚ), dir ≠ "buy" → trade_delta dir a = a) ∧
    (∀ (h : RedisHash) (strike : ℚ) (optionType : String) (a : ℚ) (dir : String),
      dir ≠ "buy" →
      hgetPosD (process_trade_step h strike optionType a dir).1 strike optionType =
        hgetPosD h strike optionType + a) := by
  refine ⟨trade_delta_buy, trade_delta_of_ne, ?_⟩
  intro h strike optionType a dir hdir
  rw [process_trade_step, update_dealer_position, hgetPosD_hsetPos,
    trade_delta_of_ne dir a hdir]

/-- C10 witness: a trade whose direction field is missing (empty string) is
applied as a sell of 3 contracts. -/
theorem c10_witness :
    trade_delta "" 3 = 3 ∧
    hgetPosD (process_trade_step [] 90000 "call" 3 "").1 90000 "call" =
      hgetPosD [] 90000 "call" + 3 :=
  ⟨c10_unrecognized_side_is_sell.2.1 "" 3 (by decide),
   c10_unrecognized_side_is_sell.2.2 [] 90000 "call" 3 "" (by decide)⟩

/-- C7 counterexample: with the last calculation 86402 seconds (one day and two
seconds) in the past and no trades since, elapsed time exceeds 5 seconds, yet
`should_recalculate` is `false` — `timedelta.seconds` is the seconds-of-day
component, not the total elapsed seconds. -/
theorem c7_counterexample :
    should_recalculate { lastCalcTime := some 0, tradesSinceLastCalc := 0 } 86402 =
        false ∧
    (calc_interval_seconds ≤ (86402 : ℤ) - 0) ∧
    ¬ calc_every_n_trades ≤ (0 : ℕ) := by
  refine ⟨?_, by decide, by decide⟩
  decide

/-- C7 (amended): a recalculation is triggered exactly when no calculation has
run yet, or trades-since-last ≥ 10, or the seconds-of-day component of the
elapsed timedelta (`elapsed mod 86400`, which equals the elapsed seconds
whenever less than a day has passed) is ≥ 5; and every run of
`recalculate_gex` that reaches the calculation (non-empty options cache and
non-empty inventory) resets the trade counter to zero and the time reference to
the current clock. -/
theorem c7_scheduler_trigger :
    (∀ (st : SchedulerState) (now : ℤ),
      should_recalculate st now = true ↔
        (st.lastCalcTime = none ∨
         calc_every_n_trades ≤ st.tradesSinceLastCalc ∨
         ∃ t, st.lastCalcTime = some t ∧
           calc_interval_seconds ≤ timedelta_seconds (now - t))) ∧
    (∀ (st : SchedulerState) (now : ℤ),
      recalculate_gex_counters st false false now =
        { lastCalcTime := some now, tradesSinceLastCalc := 0 }) := by
  constructor
  · intro st now
    cases hlt : st.lastCalcTime with
    | none => simp [should_recalculate, hlt]
    | some t =>
      simp only [should_recalculate, hlt]
      by_cases h1 : st.tradesSinceLastCalc ≥ calc_every_n_trades
      · simp [h1]
      · by_cases h2 : timedelta_seconds (now - t) ≥ calc_interval_seconds
        · simp [h1, h2]
        · simp [h1, h2]
  · intro st now
    rfl

/-- C9 counterexample: storing a result with flip level 90000 and then a result
with flip level `None` leaves `gex:flip` at 90000 while `gex:current` carries
`flip_level = None` — the mirror and the blob disagree after the second store. -/
theorem c9_counterexample :
    (store_gex_result
        (store_gex_result ⟨none, none, none⟩ ⟨0, some 90000, 87800⟩ 0)
        ⟨0, none, 87800⟩ 1).flip = some 90000 ∧
    (store_gex_result
        (store_gex_result ⟨none, none, none⟩ ⟨0, some 90000, 87800⟩ 0)
        ⟨0, none, 87800⟩ 1).current = some ⟨0, none, 87800⟩ := by
  constructor <;> rfl

/-- C9 (amended): after `store_gex_result` of a result whose flip level is
present and non-zero, `gex:flip` holds exactly that flip level and
`gex:current` holds the stored blob; when the flip level is `None` (or zero)
the mirror key is left untouched, so the two keys can disagree. -/
theorem c9_flip_mirror (st : GexStore) (blob : GexBlob) (now : ℤ) (x : ℚ)
    (hx : blob.flipLevel = some x) (hnz : x ≠ 0) :
    (store_gex_result st blob now).flip = some x ∧
    (store_gex_result st blob now).current = some blob ∧
    (store_gex_result st { blob with flipLevel := none } now).flip = st.flip := by
  refine ⟨?_, rfl, ?_⟩
  · simp [store_gex_result, truthy_flip, hx, hnz]
  · simp [store_gex_result, truthy_flip]

/-- C9 witness: a concrete store with flip level 92500 updates the mirror, and
the `None`-flip store leaves the (empty) mirror empty. -/
theorem c9_witness :
    (store_gex_result ⟨none, none, none⟩ ⟨0, some 92500, 87800⟩ 0).flip =
        some 92500 ∧
    (store_gex_result ⟨none, none, none⟩ ⟨0, some 92500, 87800⟩ 0).current =
        some ⟨0, some 92500, 87800⟩ ∧
    (store_gex_result ⟨none, none, none⟩ ⟨0, none, 87800⟩ 0).flip = none :=
  c9_flip_mirror ⟨none, none, none⟩ ⟨0, some 92500, 87800⟩ 0 92500 rfl (by decide)

/-- C8: the feed client's outer loop retries forever on failure: an error raised
in any phase (connect, auth, subscribe, listen) yields the same fixed 5-second
sleep-then-retry with no backoff growth and no retry limit (an all-error trace
of any length never exits the loop).  But the code diverges from the claimed
stop behaviour: flipping the running flag makes `run()` return normally, and
`run_forever`'s `while True` then re-enters the connect cycle instead of
terminating — only a `KeyboardInterrupt` escaping `run()` breaks the loop. -/
theorem c8_reconnect_loop_eval :
    (∀ p : RunPhase, run_forever_step (RunOutcome.raised p) =
        LoopAction.sleepThenRetry 5) ∧
    (∀ (n : ℕ) (p : RunPhase),
      run_forever_exit_index (List.replicate n (RunOutcome.raised p)) = none) ∧
    run_loop_iterates (stop ⟨true⟩) = false ∧
    run_forever_step RunOutcome.normalReturn = LoopAction.retryNow ∧
    run_forever_step RunOutcome.normalReturn ≠ LoopAction.exitLoop := by
  refine ⟨fun p => rfl, ?_, rfl, rfl, by decide⟩
  intro n p
  induction n with
  | zero => rfl
  | succ m ih => simp [List.replicate_succ, run_forever_exit_index, ih, run_forever_step]

/-! ## Selection-stage lemmas -/

/-- Rows kept by the groupby-first step come from the input frame. -/
theorem keepFirstByKey_subset :
    ∀ (seen : List (ℚ × String)) (l : List Instr) (x : Instr),
      x ∈ keepFirstByKey seen l → x ∈ l := by
  intro seen l
  induction l generalizing seen with
  | nil => intro x hx; cases hx
  | cons a t ih =>
    intro x hx
    rw [keepFirstByKey] at hx
    by_cases hs : instrKey a ∈ seen
    · rw [if_pos hs] at hx
      exact List.mem_cons_of_mem a (ih seen x hx)
    · rw [if_neg hs] at hx
      rcases List.mem_cons.1 hx with h | h
      · exact h ▸ List.mem_cons_self a t
      · exact List.mem_cons_of_mem a (ih _ x h)

/-- A kept row's key was not among the already-seen keys. -/
theorem keepFirstByKey_not_seen :
    ∀ (seen : List (ℚ × String)) (l : List Instr) (x : Instr),
      x ∈ keepFirstByKey seen l → instrKey x ∉ seen := by
  intro seen l
  induction l generalizing seen with
  | nil => intro x hx; cases hx
  | cons a t ih =>
    intro x hx
    rw [keepFirstByKey] at hx
    by_cases hs : instrKey a ∈ seen
    · rw [if_pos hs] at hx
      exact ih seen x hx
    · rw [if_neg hs] at hx
      rcases List.mem_cons.1 hx with h | h
      · subst h; exact hs
      · intro hmem
        exact ih _ x h (List.mem_cons_of_mem _ hmem)

/-- Keys are pairwise distinct after the groupby-first step. -/
theorem keepFirstByKey_pairwise_ne :
    ∀ (seen : List (ℚ × String)) (l : List Instr),
      (keepFirstByKey seen l).Pairwise (fun a b => instrKey a ≠ instrKey b) := by
  intro seen l
  induction l generalizing seen with
  | nil => exact List.Pairwise.nil
  | cons a t ih =>
    rw [keepFirstByKey]
    by_cases hs : instrKey a ∈ seen
    · rw [if_pos hs]; exact ih seen
    · rw [if_neg hs]
      refine List.Pairwise.cons ?_ (ih _)
      intro b hb
      have := keepFirstByKey_not_seen _ _ _ hb
      intro hk
      exact this (hk ▸ List.mem_cons_self _ _)

/-- Every key present in the input survives the groupby-first step (unless
already seen). -/
theorem keepFirstByKey_covers :
    ∀ (seen : List (ℚ × String)) (l : List Instr) (y : Instr),
      y ∈ l → instrKey y ∉ seen →
      ∃ x ∈ keepFirstByKey seen l, instrKey x = instrKey y := by
  intro seen l
  induction l generalizing seen with
  | nil => intro y hy; cases hy
  | cons a t ih =>
    intro y hy hseen
    rw [keepFirstByKey]
    by_cases hs : instrKey a ∈ seen
    · rw [if_pos hs]
      rcases List.mem_cons.1 hy with h | h
      · exact absurd (h ▸ hs) (by exact fun hc => hseen hc)
      · exact ih seen y h hseen
    · rw [if_neg hs]
      rcases List.mem_cons.1 hy with h | h
      · exact ⟨a, List.mem_cons_self _ _, by rw [h]⟩
      · by_cases hk : instrKey y = instrKey a
        · exact ⟨a, List.mem_cons_self _ _, hk.symm⟩
        · have hy' : instrKey y ∉ instrKey a :: seen := by
            intro hc
            rcases List.mem_cons.1 hc with hc | hc
            · exact hk hc
            · exact hseen hc
          obtain ⟨x, hx, hxk⟩ := ih _ y h hy'
          exact ⟨x, List.mem_cons_of_mem _ hx, hxk⟩

/-- On a frame sorted ascending by DTE, the row kept for a key has the smallest
DTE among all rows of that key. -/
theorem keepFirstByKey_min (now : ℚ) :
    ∀ (seen : List (ℚ × String)) (l : List Instr),
      l.Pairwise (fun a b => dteDays a now ≤ dteDays b now) →
      ∀ x ∈ keepFirstByKey seen l, ∀ y ∈ l,
        instrKey y = instrKey x → dteDays x now ≤ dteDays y now := by
  intro seen l
  induction l generalizing seen with
  | nil => intro _ x hx; cases hx
  | cons a t ih =>
    intro hp x hx y hy hkey
    have ha : ∀ b ∈ t, dteDays a now ≤ dteDays b now :=
      fun _ hb => List.rel_of_pairwise_cons hp hb
    have hp' : t.Pairwise (fun a b => dteDays a now ≤ dteDays b now) := hp.of_cons
    rw [keepFirstByKey] at hx
    by_cases hs : instrKey a ∈ seen
    · rw [if_pos hs] at hx
      rcases List.mem_cons.1 hy with h | h
      · exact absurd (hkey ▸ (h ▸ hs)) (keepFirstByKey_not_seen _ _ _ hx)
      · exact ih seen hp' x hx y h hkey
    · rw [if_neg hs] at hx
      rcases List.mem_cons.1 hx with h | h
      · subst h
        rcases List.mem_cons.1 hy with h | h
        · rw [h]
        · exact ha y h
      · rcases List.mem_cons.1 hy with h' | h'
        · exfalso
          apply keepFirstByKey_not_seen _ _ _ h
          rw [← hkey, h']
          exact List.mem_cons_self _ _
        · exact ih _ hp' x h y h' hkey

/-- The DTE-sorted frame is pairwise ordered by DTE. -/
theorem sortByDte_pairwise (l : List Instr) (now : ℚ) :
    (sortByDte l now).Pairwise (fun a b => dteDays a now ≤ dteDays b now) := by
  have htrans : ∀ a b c : Instr,
      decide (dteDays a now ≤ dteDays b now) = true →
      decide (dteDays b now ≤ dteDays c now) = true →
      decide (dteDays a now ≤ dteDays c now) = true := by
    intro a b c hab hbc
    exact decide_eq_true (le_trans (of_decide_eq_true hab) (of_decide_eq_true hbc))
  have htotal : ∀ a b : Instr,
      (decide (dteDays a now ≤ dteDays b now) ||
        decide (dteDays b now ≤ dteDays a now)) = true := by
    intro a b
    rcases le_total (dteDays a now) (dteDays b now) with h | h
    · simp [h]
    · simp [h]
  exact (List.sorted_mergeSort htrans htotal l).imp (fun h => of_decide_eq_true h)

/-- Membership in the nearest-expiry selection implies membership in the
filtered frame. -/
theorem mem_of_mem_selectNearest (options : List Instr) (now : ℚ) (x : Instr)
    (hx : x ∈ selectNearest options now) : x ∈ optionsFiltered options now := by
  have := keepFirstByKey_subset [] _ x hx
  exact (List.mem_mergeSort).1 this

/-- Inversion of the per-instrument loop body: a produced data point carries the
instrument's strike, type and DTE. -/
theorem gexRowOf_fields (inv : Inventory) (price now : ℚ) (o : Instr)
    (row : GexDataRow) (h : gexRowOf inv price now o = some row) :
    row.strike = o.strike ∧ row.optionType = o.optionType ∧
      row.daysToExpiry = dteDays o now := by
  rw [gexRowOf] at h
  by_cases h1 : |lookupPosition inv o.strike o.optionType| < 0.001
  · rw [if_pos h1] at h; cases h
  · rw [if_neg h1] at h
    by_cases h2 : sigmaOf o ≤ 0
    · rw [if_pos h2] at h; cases h
    · rw [if_neg h2] at h
      cases h
      exact ⟨rfl, rfl, rfl⟩

/-! ## Claim theorems for the engine's structural stages -/

/-- C4: if no instruments survive the expiry filter, or no per-instrument data
points are produced (in particular when every dealer position has absolute
value below 0.001), `calculate_gex` returns the sentinel result:
`net_gex = 0`, `flip_level = None`, `max_support = (0,0)`,
`max_resistance = (0,0)`, empty breakdown — it never raises. -/
theorem c4_sentinel_result (inv : Inventory) (options : List Instr) (price now : ℚ) :
    ((optionsFiltered options now = [] ∨ gexData inv options price now = []) →
      calculate_gex inv options price now = emptyResult price now) ∧
    ((∀ o ∈ options, |lookupPosition inv o.strike o.optionType| < 0.001) →
      gexData inv options price now = []) := by
  constructor
  · intro h
    rw [calculate_gex]
    rcases h with h | h
    · rw [if_pos (by rw [List.isEmpty_iff]; exact h)]
    · by_cases hf : (optionsFiltered options now).isEmpty
      · rw [if_pos hf]
      · rw [if_neg hf, if_pos (by rw [List.isEmpty_iff]; exact h)]
  · intro h
    rw [gexData, List.filterMap_eq_nil_iff]
    intro o ho
    have : o ∈ options :=
      List.mem_of_mem_filter (mem_of_mem_selectNearest options now o ho)
    rw [gexRowOf, if_pos (h o this)]

/-- C4 witness: a one-instrument chain whose only dealer position is absent
(hence zero) produces the sentinel result. -/
theorem c4_witness :
    calculate_gex [] [⟨90000, "call", 86400, 34⟩] 87800 0 = emptyResult 87800 0 :=
  (c4_sentinel_result [] [⟨90000, "call", 86400, 34⟩] 87800 0).1
    (Or.inr ((c4_sentinel_result [] [⟨90000, "call", 86400, 34⟩] 87800 0).2
      (by
        intro o ho
        have ho' := List.mem_singleton.1 ho
        subst ho'
        norm_num [lookupPosition, List.find?])))

/-- C5: for every key (strike, option type), only the surviving instrument with
the smallest days-to-expiry is kept by the selection stage — every selected row
is a filtered row whose DTE is minimal among filtered rows of its key, the
selected list holds at most one row per key (so every other maturity of that
key is discarded before any exposure is computed), every filtered key is
represented, and every produced gamma data point descends from a selected
row. -/
theorem c5_nearest_expiry (inv : Inventory) (options : List Instr) (price now : ℚ) :
    (∀ r ∈ selectNearest options now,
      r ∈ optionsFiltered options now ∧
      (∀ y ∈ optionsFiltered options now,
        instrKey y = instrKey r → dteDays r now ≤ dteDays y now) ∧
      (∀ y ∈ selectNearest options now, instrKey y = instrKey r → y = r)) ∧
    (∀ y ∈ optionsFiltered options now,
      ∃ r ∈ selectNearest options now, instrKey r = instrKey y) ∧
    (∀ row ∈ gexData inv options price now,
      ∃ o ∈ selectNearest options now,
        row.strike = o.strike ∧ row.optionType = o.optionType ∧
          row.daysToExpiry = dteDays o now) := by
  refine ⟨?_, ?_, ?_⟩
  · intro r hr
    refine ⟨mem_of_mem_selectNearest options now r hr, ?_, ?_⟩
    · intro y hy hkey
      exact keepFirstByKey_min now [] _ (sortByDte_pairwise _ now) r hr y
        ((List.mem_mergeSort).2 hy) hkey
    · intro y hy hkey
      by_contra hne
      exact (List.Pairwise.forall (fun a b h => (h ∘ Eq.symm : instrKey b ≠ instrKey a))
        (keepFirstByKey_pairwise_ne [] _) hy hr hne) hkey
  · intro y hy
    exact keepFirstByKey_covers [] _ y ((List.mem_mergeSort).2 hy) (by simp)
  · intro row hrow
    rw [gexData] at hrow
    obtain ⟨o, ho, heq⟩ := List.mem_filterMap.1 hrow
    exact ⟨o, ho, gexRowOf_fields inv price now o row heq⟩

/-- C5 witness: of two surviving 90000-call instruments with DTE 2 days and
1 day, the selected one is the 1-day instrument, whose DTE is indeed no larger
than the 2-day one's. -/
theorem c5_witness :
    (⟨90000, "call", 86400, 40⟩ : Instr) ∈
        optionsFiltered [⟨90000, "call", 86400, 40⟩, ⟨90000, "call", 172800, 34⟩] 0 ∧
    dteDays (⟨90000, "call", 86400, 40⟩ : Instr) 0 ≤
        dteDays (⟨90000, "call", 172800, 34⟩ : Instr) 0 := by
  have hfil : optionsFiltered [⟨90000, "call", 86400, 40⟩, ⟨90000, "call", 172800, 34⟩] 0 =
      [⟨90000, "call", 86400, 40⟩, ⟨90000, "call", 172800, 34⟩] := by
    norm_num [optionsFiltered, List.filter, dteDays, dteSeconds]
  have hsort : sortByDte [(⟨90000, "call", 86400, 40⟩ : Instr), ⟨90000, "call", 172800, 34⟩] 0 =
      [⟨90000, "call", 86400, 40⟩, ⟨90000, "call", 172800, 34⟩] :=
    List.mergeSort_of_sorted (by norm_num [List.pairwise_cons, dteDays, dteSeconds])
  have hsel : selectNearest [(⟨90000, "call", 86400, 40⟩ : Instr), ⟨90000, "call", 172800, 34⟩] 0 =
      [⟨90000, "call", 86400, 40⟩] := by
    rw [selectNearest, hfil, hsort]
    simp [keepFirstByKey, instrKey]
  have h := (c5_nearest_expiry []
      [⟨90000, "call", 86400, 40⟩, ⟨90000, "call", 172800, 34⟩] 87800 0).1
      ⟨90000, "call", 86400, 40⟩ (by rw [hsel]; exact List.mem_singleton_self _)
  exact ⟨h.1, h.2.1 ⟨90000, "call", 172800, 34⟩
    (by rw [hfil]; exact List.mem_cons_of_mem _ (List.mem_singleton_self _)) rfl⟩

/-! ## Flip-level lemmas and claim -/

/-- A scan over adjacent pairs none of which changes sign yields no flip. -/
theorem scanFlip_eq_none (l : List StrikeRow)
    (h : l.Chain' (fun x y => ¬(x.gex > 0 ∧ y.gex < 0) ∧ ¬(x.gex < 0 ∧ y.gex > 0))) :
    scanFlip l = none := by
  induction l with
  | nil => rfl
  | cons a t ih =>
    cases t with
    | nil => rfl
    | cons b rest =>
      rw [List.chain'_cons] at h
      have ih' := ih h.2
      rw [scanFlip, if_neg h.1.1, if_neg h.1.2]
      exact ih'

/-- C3: at the first adjacent pair of the sorted in-range strikes whose
aggregate exposures change sign, `_find_flip_level` returns
`strike_a + |gex_a| / (|gex_a| + |gex_b|) * (strike_b - strike_a)` (both flip
directions), pairs without a sign change are skipped, no sign change in the
±15% range yields `None` (no nearest-strike fallback), and the concrete pair
(90000, +100), (91000, −50) interpolates to 90000 + (100/150)·1000. -/
theorem c3_flip_interpolation :
    (∀ (a b : StrikeRow) (rest : List StrikeRow), a.gex > 0 → b.gex < 0 →
      scanFlip (a :: b :: rest) =
        some ((a.strike : ℝ) + |a.gex| / (|a.gex| + |b.gex|) *
          ((b.strike : ℝ) - (a.strike : ℝ)))) ∧
    (∀ (a b : StrikeRow) (rest : List StrikeRow), a.gex < 0 → b.gex > 0 →
      scanFlip (a :: b :: rest) =
        some ((a.strike : ℝ) + |a.gex| / (|a.gex| + |b.gex|) *
          ((b.strike : ℝ) - (a.strike : ℝ)))) ∧
    (∀ (a b : StrikeRow) (rest : List StrikeRow),
      ¬(a.gex > 0 ∧ b.gex < 0) → ¬(a.gex < 0 ∧ b.gex > 0) →
      scanFlip (a :: b :: rest) = scanFlip (b :: rest)) ∧
    (∀ (rows : List StrikeRow) (price : ℚ),
      (relevantRows rows price).Chain'
        (fun x y => ¬(x.gex > 0 ∧ y.gex < 0) ∧ ¬(x.gex < 0 ∧ y.gex > 0)) →
      find_flip_level rows price = none) ∧
    find_flip_level [⟨90000, 100, 100, 0⟩, ⟨91000, -50, -50, 0⟩] 90000 =
      some (90000 + 100 / 150 * 1000) := by
  refine ⟨?_, ?_, ?_, ?_, ?_⟩
  · intro a b rest ha hb
    rw [scanFlip, if_pos ⟨ha, hb⟩, abs_of_pos ha, abs_of_neg hb, ← sub_eq_add_neg]
  · intro a b rest ha hb
    rw [scanFlip, if_neg (fun hc => absurd hc.1 (asymm ha)), if_pos ⟨ha, hb⟩,
      abs_of_neg ha, abs_of_pos hb]
    ring_nf
  · intro a b rest h1 h2
    rw [scanFlip, if_neg h1, if_neg h2]
  · intro rows price h
    rw [find_flip_level]
    by_cases hl : (relevantRows rows price).length < 2
    · rw [if_pos hl]
    · rw [if_neg hl]
      exact scanFlip_eq_none _ h
  · have hrel : relevantRows [⟨90000, 100, 100, 0⟩, ⟨91000, -50, -50, 0⟩] 90000 =
        [⟨90000, 100, 100, 0⟩, ⟨91000, -50, -50, 0⟩] := by
      rw [relevantRows]
      have hf : List.filter
          (fun r => decide (r.strike ≥ 90000 * 0.85 ∧ r.strike ≤ 90000 * 1.15))
          [(⟨90000, 100, 100, 0⟩ : StrikeRow), ⟨91000, -50, -50, 0⟩] =
          [⟨90000, 100, 100, 0⟩, ⟨91000, -50, -50, 0⟩] := by
        norm_num [List.filter]
      rw [hf]
      exact List.mergeSort_of_sorted (by norm_num [List.pairwise_cons])
    rw [find_flip_level, hrel, if_neg (by norm_num), scanFlip,
      if_pos ⟨by norm_num, by norm_num⟩]
    norm_num

/-- C3 witness: the positive-to-negative branch applied at the concrete pair
(90000, +100), (91000, −50). -/
theorem c3_witness :
    (100 : ℝ) > 0 ∧ (-50 : ℝ) < 0 ∧
    scanFlip [⟨90000, 100, 100, 0⟩, ⟨91000, -50, -50, 0⟩] =
      some (((90000 : ℚ) : ℝ) + |(100 : ℝ)| / (|(100 : ℝ)| + |(-50 : ℝ)|) *
        (((91000 : ℚ) : ℝ) - ((90000 : ℚ) : ℝ))) :=
  ⟨by norm_num, by norm_num,
   c3_flip_interpolation.1 ⟨90000, 100, 100, 0⟩ ⟨91000, -50, -50, 0⟩ []
     (by norm_num) (by norm_num)⟩

/-! ## Evaluating the pipeline on a single surviving instrument -/

/-- Positivity of the normal density. -/
theorem normPdf_pos (x : ℝ) : 0 < normPdf x :=
  div_pos (Real.exp_pos _) (Real.sqrt_pos.2 (by positivity))

/-- Positivity of the Black-Scholes gamma away from the guard. -/
theorem black_scholes_gamma_pos (S K T r sigma : ℝ) (hS : 0 < S) (hT : 0 < T)
    (hsig : 0 < sigma) : 0 < black_scholes_gamma S K T r sigma := by
  rw [black_scholes_gamma, if_neg (not_or.2 ⟨not_le.2 hT, not_le.2 hsig⟩)]
  exact div_pos (normPdf_pos _)
    (mul_pos (mul_pos hS hsig) (Real.sqrt_pos.2 hT))

/-- Full evaluation of `calculate_gex` on a chain of one instrument that
survives the filter, has a non-negligible position and positive IV: the
breakdown holds exactly that instrument's strike and `net_gex` is its single
weighted contribution. -/
theorem calculate_gex_single (inv : Inventory) (o : Instr) (price now : ℚ)
    (hdte : dteDays o now > 0.083)
    (hpos : ¬ |lookupPosition inv o.strike o.optionType| < 0.001)
    (hsig : ¬ sigmaOf o ≤ 0) :
    (calculate_gex inv [o] price now).netGex =
      gexRawOf inv price now o * timeWeightOf o now ∧
    (calculate_gex inv [o] price now).gexByStrike.map StrikeRow.strike =
      [o.strike] := by
  have hfil : optionsFiltered [o] now = [o] := by
    simp [optionsFiltered, List.filter_cons, hdte]
  have hsort : sortByDte [o] now = [o] := List.mergeSort_singleton o
  have hsel : selectNearest [o] now = [o] := by
    rw [selectNearest, hfil, hsort]
    simp [keepFirstByKey]
  have hrow : gexRowOf inv price now o =
      some
        { strike := o.strike
          optionType := o.optionType
          dealerPosition := lookupPosition inv o.strike o.optionType
          gamma := black_scholes_gamma (price : ℝ) (o.strike : ℝ)
            ((dteDays o now / 365.25 : ℚ) : ℝ) 0 ((sigmaOf o : ℚ) : ℝ)
          gexRaw := gexRawOf inv price now o
          gexWeighted := gexRawOf inv price now o * timeWeightOf o now
          timeWeight := timeWeightOf o now
          daysToExpiry := dteDays o now
          markIv := o.markIv } := by
    rw [gexRowOf, if_neg hpos, if_neg hsig]
  have hgd : gexData inv [o] price now =
      [{ strike := o.strike
         optionType := o.optionType
         dealerPosition := lookupPosition inv o.strike o.optionType
         gamma := black_scholes_gamma (price : ℝ) (o.strike : ℝ)
           ((dteDays o now / 365.25 : ℚ) : ℝ) 0 ((sigmaOf o : ℚ) : ℝ)
         gexRaw := gexRawOf inv price now o
         gexWeighted := gexRawOf inv price now o * timeWeightOf o now
         timeWeight := timeWeightOf o now
         daysToExpiry := dteDays o now
         markIv := o.markIv }] := by
    rw [gexData, hsel, List.filterMap_cons, hrow, List.filterMap_nil]
  have h1 : ¬ (optionsFiltered [o] now).isEmpty = true := by
    rw [hfil]; simp
  have h2 : ¬ (gexData inv [o] price now).isEmpty = true := by
    rw [hgd]; simp
  rw [calculate_gex, if_neg h1, if_neg h2]
  have hagg : aggregateByStrike (gexData inv [o] price now) =
      [{ strike := o.strike
         gex := gexRawOf inv price now o * timeWeightOf o now
         gexRaw := gexRawOf inv price now o
         dealerPosition := lookupPosition inv o.strike o.optionType }] := by
    rw [hgd, aggregateByStrike, strikesOf]
    simp
  rw [hagg]
  simp


/-- Positivity of a per-instrument raw exposure for a long position. -/
theorem gexRawOf_pos (inv : Inventory) (price now : ℚ) (o : Instr)
    (hpos : 0 < lookupPosition inv o.strike o.optionType) (hprice : 0 < price)
    (hT : 0 < dteDays o now) (hsig : 0 < sigmaOf o) :
    0 < gexRawOf inv price now o := by
  rw [gexRawOf]
  have hg : (0 : ℝ) < black_scholes_gamma (price : ℝ) (o.strike : ℝ)
      ((dteDays o now / 365.25 : ℚ) : ℝ) 0 ((sigmaOf o : ℚ) : ℝ) := by
    refine black_scholes_gamma_pos _ _ _ _ _ ?_ ?_ ?_
    · exact_mod_cast hprice
    · exact_mod_cast div_pos hT (by norm_num)
    · exact_mod_cast hsig
  have hp : (0 : ℝ) < (lookupPosition inv o.strike o.optionType : ℝ) := by
    exact_mod_cast hpos
  have hs : (0 : ℝ) < (price : ℝ) ^ 2 := by
    have : (0 : ℝ) < (price : ℝ) := by exact_mod_cast hprice
    positivity
  exact mul_pos (mul_pos (mul_pos hg hp) hs) (by norm_num)

/-- Positivity of the time weight when the instrument has positive DTE. -/
theorem timeWeightOf_pos (o : Instr) (now : ℚ) (h : 0 < dteDays o now) :
    0 < timeWeightOf o now := by
  rw [timeWeightOf, if_pos h]
  exact div_pos one_pos (Real.sqrt_pos.2 (by exact_mod_cast h))

/-- C6 (amended): the expiry cutoff is `dte_days > 0.083` (0.083 days is
1 h 59 m 31.2 s, not exactly 2 hours): every instrument whose days-to-expiry is
at most 0.083 — in particular every expired one — is discarded by the filter,
and every produced data point has days-to-expiry strictly above 0.083. -/
theorem c6_expiry_cutoff (inv : Inventory) (options : List Instr) (price now : ℚ) :
    (∀ o ∈ options, dteDays o now ≤ 0.083 → o ∉ optionsFiltered options now) ∧
    (∀ row ∈ gexData inv options price now, row.daysToExpiry > 0.083) := by
  constructor
  · intro o _ hle hmem
    rw [optionsFiltered] at hmem
    have hpa := List.of_mem_filter hmem
    exact absurd (of_decide_eq_true hpa) (not_lt.2 hle)
  · intro row hrow
    obtain ⟨o, ho, heq⟩ := List.mem_filterMap.1 hrow
    have hfields := gexRowOf_fields inv price now o row heq
    have hmem := mem_of_mem_selectNearest options now o ho
    rw [optionsFiltered] at hmem
    have hpa := List.of_mem_filter hmem
    rw [hfields.2.2]
    exact of_decide_eq_true hpa

/-- C6 witness: an already-expired instrument is discarded by the filter. -/
theorem c6_witness :
    (⟨90000, "call", 0, 34⟩ : Instr) ∉ optionsFiltered [⟨90000, "call", 0, 34⟩] 0 :=
  (c6_expiry_cutoff [] [⟨90000, "call", 0, 34⟩] 87800 0).1 ⟨90000, "call", 0, 34⟩
    (List.mem_singleton_self _) (by norm_num [dteDays, dteSeconds])

/-- C6 counterexample: an instrument expiring 7190 seconds from now — within
2 hours (7200 s) — survives the `dte_days > 0.083` filter (7190 s is 0.08322
days) and contributes a strike to the per-strike breakdown. -/
theorem c6_counterexample :
    dteSeconds ⟨90000, "call", 7190, 34⟩ 0 ≤ 7200 ∧
    (0 : ℚ) < dteSeconds ⟨90000, "call", 7190, 34⟩ 0 ∧
    (calculate_gex [(90000, [("call", 146)])] [⟨90000, "call", 7190, 34⟩]
        87800 0).gexByStrike.map StrikeRow.strike = [90000] := by
  refine ⟨by norm_num [dteSeconds], by norm_num [dteSeconds], ?_⟩
  exact (calculate_gex_single [(90000, [("call", 146)])] ⟨90000, "call", 7190, 34⟩
    87800 0 (by norm_num [dteDays, dteSeconds])
    (by norm_num [lookupPosition, List.find?]) (by norm_num [sigmaOf])).2

/-- C2 (amended): `calculate_gex` is deterministic and side-effect-free once the
clock instant it reads is made an explicit input — identical
(inventory, options, price, now) always produce identical results — and the
clock enters the computation only through `expiration - now`: shifting an
instrument's expiration and the evaluation instant together changes neither its
days-to-expiry nor its produced data point.  (The code does read the clock for
the DTE computation, so invocations at different instants may differ; see the
counterexample.) -/
theorem c2_engine_determinism :
    (∀ (inv : Inventory) (options : List Instr) (price t1 t2 : ℚ), t1 = t2 →
      calculate_gex inv options price t1 = calculate_gex inv options price t2) ∧
    (∀ (inv : Inventory) (price now s : ℚ) (o : Instr),
      gexRowOf inv price (now + s) { o with expiration := o.expiration + s } =
        gexRowOf inv price now o) ∧
    (∀ (o : Instr) (now s : ℚ),
      dteDays { o with expiration := o.expiration + s } (now + s) = dteDays o now) := by
  have hdte : ∀ (o : Instr) (now s : ℚ),
      dteDays { o with expiration := o.expiration + s } (now + s) = dteDays o now := by
    intro o now s
    show (o.expiration + s - (now + s)) / 86400 = (o.expiration - now) / 86400
    ring
  refine ⟨?_, ?_, hdte⟩
  · intro inv options price t1 t2 h
    rw [h]
  · intro inv price now s o
    simp only [gexRowOf, gexRawOf, timeWeightOf, sigmaOf, hdte]

/-- C2 witness: determinism and shift-invariance instantiated at concrete
inputs. -/
theorem c2_witness :
    calculate_gex [] [] 87800 0 = calculate_gex [] [] 87800 0 ∧
    dteDays ⟨90000, "call", 86400 + 100, 34⟩ (0 + 100) =
      dteDays ⟨90000, "call", 86400, 34⟩ 0 :=
  ⟨c2_engine_determinism.1 [] [] 87800 0 0 rfl,
   c2_engine_determinism.2.2 ⟨90000, "call", 86400, 34⟩ 0 100⟩

/-- C2 counterexample: with inventory, options and price held fixed, the engine
invoked at two different clock instants returns different `net_gex` (positive
one day before expiry, zero at expiry when the filter discards the chain) —
`calculate_gex` reads the clock beyond the timestamp field. -/
theorem c2_counterexample :
    (calculate_gex [(90000, [("call", 146)])] [⟨90000, "call", 86400, 34⟩]
        87800 0).netGex ≠
      (calculate_gex [(90000, [("call", 146)])] [⟨90000, "call", 86400, 34⟩]
        87800 86400).netGex := by
  have hleft := (calculate_gex_single [(90000, [("call", 146)])]
    ⟨90000, "call", 86400, 34⟩ 87800 0 (by norm_num [dteDays, dteSeconds])
    (by norm_num [lookupPosition, List.find?]) (by norm_num [sigmaOf])).1
  have hright : calculate_gex [(90000, [("call", 146)])] [⟨90000, "call", 86400, 34⟩]
      87800 86400 = emptyResult 87800 86400 := by
    rw [calculate_gex, if_pos ?_]
    have hf : optionsFiltered [(⟨90000, "call", 86400, 34⟩ : Instr)] 86400 = [] := by
      norm_num [optionsFiltered, List.filter, dteDays, dteSeconds]
    rw [hf]
    rfl
  rw [hleft, hright]
  have hlook : lookupPosition [(90000, [("call", 146)])] 90000 "call" = 146 := by
    norm_num [lookupPosition, List.find?]
  have hg : (0 : ℝ) < gexRawOf [(90000, [("call", 146)])] 87800 0
      ⟨90000, "call", 86400, 34⟩ :=
    gexRawOf_pos _ _ _ _ (by rw [hlook]; norm_num) (by norm_num)
      (by norm_num [dteDays, dteSeconds]) (by norm_num [sigmaOf])
  have hw : (0 : ℝ) < timeWeightOf ⟨90000, "call", 86400, 34⟩ 0 :=
    timeWeightOf_pos _ _ (by norm_num [dteDays, dteSeconds])
  exact ne_of_gt (mul_pos hg hw)
